import Mathlib

/-!
A verification development for the stoppablecontainer operator.

The definitions below are shallow embeddings of the Go source:

* `MountHelper` embeds `cmd/mount-helper/main.go` (the node-local mount
  agent): the string helpers from the Go standard library that the agent
  uses (`strings.Contains`, `strings.ReplaceAll`, `strings.Fields`,
  `strconv.Atoi`), path adjustment (`adjustPathsForHost`), rootfs-container
  discovery (`findRootfsContainer`), overlay-option extraction
  (`getOverlayfsOptions`), overlay mounting (`mountOverlay`) and request
  processing (`processRequest` / the per-directory body of
  `scanAndProcessRequests`).  File-system and process state that the agent
  reads is passed in explicitly (`AgentEnv`, `WorkDirState`).
* `Controller` embeds the two reconcilers
  (`StoppableContainerInstanceReconciler.Reconcile` / `updatePhase` /
  `isPodReady` / `isPodFailed` / `getPodFailureReason`, and
  `StoppableContainerReconciler.updateStatusFromInstance`).
* `ConsumerPodBuilder` embeds the container pipeline of the PodSpec-based
  consumer pod builder (`internal/provider`, `Build` and its helpers).

Strings are modelled as `List Char` where substring surgery matters and as
`String` where only equality and concatenation occur.
-/

namespace GoStrings

/-- `chars s` is the character list of a string literal. -/
def chars (s : String) : List Char := s.data

/-- Embedding of Go `strings.Contains s sub`: `sub` occurs as a contiguous
substring of `s`. -/
def goContains : List Char → List Char → Bool
  | [], sub => sub.isEmpty
  | s@(_ :: t), sub => sub.isPrefixOf s || goContains t sub

/-- Fuel-indexed worker for `goReplaceAll`.  One unit of fuel is spent per
step; each step consumes at least one character, so `s.length` fuel always
suffices. -/
def goReplaceAllFuel (pat rep : List Char) : Nat → List Char → List Char
  | _, [] => []
  | 0, s => s
  | f + 1, c :: t =>
    if pat.isPrefixOf (c :: t) then
      rep ++ goReplaceAllFuel pat rep f (t.drop (pat.length - 1))
    else
      c :: goReplaceAllFuel pat rep f t

/-- Embedding of Go `strings.ReplaceAll s pat rep` for a non-empty pattern:
replace every non-overlapping occurrence of `pat`, scanning left to right.
(The Go special case for the empty pattern is never exercised by the
agent and is not modelled.) -/
def goReplaceAll (pat rep s : List Char) : List Char :=
  goReplaceAllFuel pat rep s.length s

/-- Embedding of Go `strings.Fields`: split around runs of whitespace. -/
def goFields (s : List Char) : List (List Char) :=
  (s.splitOnP fun c =>
    c = ' ' || c = '\t' || c = '\n' || c = '\r' ||
      c = Char.ofNat 11 || c = Char.ofNat 12).filter fun t => !t.isEmpty

/-- Decimal digits of a candidate `strconv.Atoi` input. -/
def digitsToNat (ds : List Char) : Option Nat :=
  if ds.isEmpty then none
  else if ds.all Char.isDigit then
    some (ds.foldl (fun a c => a * 10 + (c.toNat - 48)) 0)
  else none

/-- Embedding of Go `strconv.Atoi` (overflow aside): an optional sign
followed by at least one digit. -/
def goAtoi (s : List Char) : Option Int :=
  match s with
  | '+' :: ds => (digitsToNat ds).map Int.ofNat
  | '-' :: ds => (digitsToNat ds).map fun n => -(Int.ofNat n)
  | ds => (digitsToNat ds).map Int.ofNat


end GoStrings

namespace MountHelper

open GoStrings

/-- `HostRootPath` from `cmd/mount-helper/main.go`: where the host root
filesystem is mounted inside the DaemonSet container. -/
def hostRootPath : List Char := chars "/host"

/-- The container-runtime path replaced by `adjustPathsForHost`. -/
def ctrdPath : List Char := chars "/var/lib/containerd"

/-- `RootfsMarkerEnv` from `cmd/mount-helper/main.go`: the environment entry
identifying rootfs containers. -/
def rootfsMarkerLine : List Char := chars "ROOTFS_MARKER=true"

/-- Embeds `adjustPathsForHost`:
`strings.ReplaceAll(opts, "/var/lib/containerd", HostRootPath+"/var/lib/containerd")`. -/
def adjustPathsForHost (opts : List Char) : List Char :=
  goReplaceAll ctrdPath (hostRootPath ++ ctrdPath) opts

/-- Embeds `mountOverlay`: validate that the option string mentions
`lowerdir=` and `upperdir=`, then issue the mount syscall, whose outcome is
supplied as `mountErr` (`none` = the syscall succeeds). -/
def mountOverlay (mountErr : Option (List Char)) (_target options : List Char) :
    Except (List Char) Unit :=
  if !goContains options (chars "lowerdir=") ||
      !goContains options (chars "upperdir=") then
    .error (chars "invalid overlay options: missing lowerdir or upperdir")
  else
    match mountErr with
    | some m => .error (chars "mount syscall failed: " ++ m)
    | none => .ok ()

/-- The line shape `getOverlayfsOptions` scans for in `/proc/PID/mounts`. -/
def overlayLineTag : List Char := chars "overlay / overlay "

/-- Embeds the scanner loop of `getOverlayfsOptions`: return the fourth
whitespace-separated field of the first line starting with
`overlay / overlay ` that has at least four fields. -/
def getOverlayfsOptions : List (List Char) → Except (List Char) (List Char)
  | [] => .error (chars "overlayfs mount not found")
  | l :: ls =>
    if overlayLineTag.isPrefixOf l then
      match (goFields l).drop 3 with
      | opt :: _ => .ok opt
      | [] => getOverlayfsOptions ls
    else getOverlayfsOptions ls

/-- Byte-wise lexicographic strict order on names, as Go compares strings. -/
def lexLt : List Char → List Char → Bool
  | [], [] => false
  | [], _ :: _ => true
  | _ :: _, [] => false
  | a :: as, b :: bs =>
    if a.toNat < b.toNat then true
    else if b.toNat < a.toNat then false
    else lexLt as bs

/-- Reflexive byte-wise lexicographic order. -/
def lexLe (a b : List Char) : Bool := !lexLt b a

/-- One `/proc/<pid>/` directory entry as the agent reads it: the entry
name plus the contents of its `cgroup` and `environ` files (`none` models a
failing read, which the Go code skips). -/
structure ProcEntry where
  name : List Char
  cgroup : Option (List Char)
  environ : Option (List Char)
deriving DecidableEq

/-- Insert an entry into a name-sorted list (worker for `sortByName`). -/
def insertByName (e : ProcEntry) : List ProcEntry → List ProcEntry
  | [] => [e]
  | x :: xs =>
    if lexLe e.name x.name then e :: x :: xs else x :: insertByName e xs

/-- `os.ReadDir` returns directory entries sorted by file name; this models
that ordering for the `/proc` listing. -/
def sortByName : List ProcEntry → List ProcEntry
  | [] => []
  | e :: es => insertByName e (sortByName es)

/-- One iteration of the loop body of `findRootfsContainer`: skip
non-numeric names and unreadable files, then require the cgroup to contain
the underscored pod UID and the environ to contain the rootfs marker. -/
def matchPid (uidU : List Char) (e : ProcEntry) : Option Int :=
  match goAtoi e.name with
  | none => none
  | some pid =>
    match e.cgroup with
    | none => none
    | some cg =>
      if !goContains cg uidU then none
      else
        match e.environ with
        | none => none
        | some ev =>
          if goContains ev rootfsMarkerLine then some pid else none

/-- The scan of `findRootfsContainer`: the first matching entry wins. -/
def findLoop (uidU : List Char) : List ProcEntry → Option Int
  | [] => none
  | e :: es =>
    match matchPid uidU e with
    | some pid => some pid
    | none => findLoop uidU es

/-- Embeds `findRootfsContainer`: underscore the pod UID, walk the sorted
`/proc` listing, and fail when nothing matches. -/
def findRootfsContainer (podUID : List Char) (entries : List ProcEntry) :
    Except (List Char) Int :=
  match findLoop (goReplaceAll (chars "-") (chars "_") podUID)
      (sortByName entries) with
  | some pid => .ok pid
  | none => .error (chars "rootfs container not found for pod " ++ podUID)

/-- `MountRequest` from `cmd/mount-helper/main.go`. -/
structure MountRequest where
  podUID : List Char
  nspace : List Char
  name : List Char
deriving DecidableEq

/-- `MountResponse` from `cmd/mount-helper/main.go`: the content written to
`ready.json`. -/
structure MountResponse where
  status : List Char
  message : List Char
deriving DecidableEq

/-- The file-level state of one per-instance work directory: the raw bytes
of `request.json` (`none` = absent), the decoded `ready.json` (`none` =
absent) and whether the `rootfs` directory has been created. -/
structure WorkDirState where
  path : List Char
  request : Option (List Char)
  ready : Option MountResponse
  rootfsDirExists : Bool
deriving DecidableEq

/-- Everything `processRequest` reads from or does to the world outside the
work directory, passed in explicitly: JSON decoding of the request
(`encoding/json`), the `/proc` listing, per-pid `mounts` files (`none` = the
open fails), the outcome of `os.MkdirAll` for the rootfs directory, the
outcome of the overlay `syscall.Mount` (as a function of target and
options), and the aggregate outcome of `mountProcDevSys` (which the Go code
only logs). -/
structure AgentEnv where
  parseRequest : List Char → Option MountRequest
  procEntries : List ProcEntry
  mountsOf : Int → Option (List (List Char))
  mkdirErr : Option (List Char)
  mountErr : List Char → List Char → Option (List Char)
  procDevSysErr : Option (List Char)

/-- Embeds `processRequest`: read and decode the request, locate the rootfs
container, extract and rehost the overlay options, create the `rootfs`
directory, mount, try the pseudo-filesystem mounts (failures only logged),
remove `request.json` and write the `ready` response.  Returns the updated
work-directory state together with the function's `error` result. -/
def processRequest (env : AgentEnv) (wd : WorkDirState) :
    WorkDirState × Except (List Char) Unit :=
  match wd.request with
  | none => (wd, .error (chars "failed to read request"))
  | some raw =>
    match env.parseRequest raw with
    | none => (wd, .error (chars "failed to parse request"))
    | some req =>
      match findRootfsContainer req.podUID env.procEntries with
      | .error m =>
        (wd, .error (chars "failed to find rootfs container: " ++ m))
      | .ok rootfsPID =>
        match env.mountsOf rootfsPID with
        | none =>
          (wd, .error (chars "failed to get overlayfs options: failed to open mounts"))
        | some mountLines =>
          match getOverlayfsOptions mountLines with
          | .error m =>
            (wd, .error (chars "failed to get overlayfs options: " ++ m))
          | .ok overlayOpts =>
            match env.mkdirErr with
            | some m => (wd, .error (chars "failed to create rootfs dir: " ++ m))
            | none =>
              let wd1 : WorkDirState := { wd with rootfsDirExists := true }
              let rootfsDir := wd.path ++ chars "/rootfs"
              let overlayOptsHost := adjustPathsForHost overlayOpts
              match mountOverlay (env.mountErr rootfsDir overlayOptsHost)
                  rootfsDir overlayOptsHost with
              | .error m => (wd1, .error (chars "failed to mount overlay: " ++ m))
              | .ok _ =>
                -- `mountProcDevSys` errors are logged and processing continues.
                let wd2 : WorkDirState := { wd1 with request := none }
                ({ wd2 with ready := some ⟨chars "ready", []⟩ }, .ok ())

/-- Embeds the per-directory body of `scanAndProcessRequests`: skip
directories without `request.json`; otherwise run `processRequest` and, on
error, write an error response into `ready.json`. -/
def handleWorkDir (env : AgentEnv) (wd : WorkDirState) : WorkDirState :=
  match wd.request with
  | none => wd
  | some _ =>
    match processRequest env wd with
    | (wd', .ok _) => wd'
    | (wd', .error m) => { wd' with ready := some ⟨chars "error", m⟩ }

/-- Embeds one pass of `scanAndProcessRequests` over the work directories. -/
def scanAndProcessRequests (env : AgentEnv) (dirs : List WorkDirState) :
    List WorkDirState :=
  dirs.map (handleWorkDir env)

end MountHelper

namespace SpecModel

open GoStrings MountHelper

/-- Separator characters between paths in an overlay option string:
options are comma-separated `key=value` pairs whose values may be
colon-separated path lists. -/
def isOptSep (c : Char) : Bool := c = ',' || c = ':' || c = '='

/-- Modelled from the spec (for comparison with `adjustPathsForHost`):
rewrite a single path exactly when it begins with the container-runtime
path, by prepending the host-root path. -/
def specAdjustPath (p : List Char) : List Char :=
  if ctrdPath.isPrefixOf p then hostRootPath ++ p else p

/-- Fuel-indexed worker for `specAdjustPaths` (each step consumes the next
path together with its trailing separator). -/
def specAdjustFuel : Nat → List Char → List Char
  | 0, s => s
  | f + 1, s =>
    let tok := s.takeWhile fun c => !isOptSep c
    match s.dropWhile fun c => !isOptSep c with
    | [] => specAdjustPath tok
    | c :: r => specAdjustPath tok ++ c :: specAdjustFuel f r

/-- Modelled from the spec (for comparison with `adjustPathsForHost`):
"replace every occurrence of the container-runtime prefix … Do not rewrite
paths that do not begin with that prefix" — each path of the option string
is rewritten exactly when it begins with the container-runtime path. -/
def specAdjustPaths (s : List Char) : List Char := specAdjustFuel s.length s

end SpecModel

namespace Controller

/-- `SCIFinalizerName` from the instance controller. -/
def finalizerName : String := "stoppablecontainerinstance.xtlsoft.top/finalizer"

/-- The provider pod name, as derived both by `ProviderPodBuilder.Build`
(`fmt.Sprintf("%s-provider", b.sci.Name)`) and by the `Reconcile` lookup
(`fmt.Sprintf("%s-provider", sci.Name)`). -/
def providerPodName (n : String) : String := n ++ "-provider"

/-- The name under which `Reconcile` and `handleDeletion` look up the
consumer pod: `fmt.Sprintf("%s-consumer", sci.Name)`. -/
def consumerLookupName (n : String) : String := n ++ "-consumer"

/-- The result of `updateStatusFromInstance`: projected workload phase and
the Ready condition's status, reason and message. -/
structure Projection where
  phase : String
  condStatus : String
  reason : String
  message : String
deriving DecidableEq

/-- Embeds the `switch sci.Status.Phase` of
`StoppableContainerReconciler.updateStatusFromInstance` (a Go `switch` is
the same as this chain of equality tests). -/
def updateStatusFromInstance (instPhase instMessage : String) : Projection :=
  if instPhase = "Pending" ∨ instPhase = "ProviderStarting" then
    ⟨"Pending", "False", "Pending", "Instance is starting up"⟩
  else if instPhase = "ProviderReady" ∨ instPhase = "ConsumerStarting" then
    ⟨"ProviderReady", "False", "ProviderReady",
      "Provider is ready, consumer is starting"⟩
  else if instPhase = "Running" then
    ⟨"Running", "True", "Running", "Container is running"⟩
  else if instPhase = "Stopping" ∨ instPhase = "Stopped" then
    ⟨"Stopped", "False", "Stopped",
      "Container is stopped, filesystem preserved"⟩
  else if instPhase = "Failed" then
    ⟨"Failed", "False", "Failed", instMessage⟩
  else
    ⟨"Pending", "Unknown", "Unknown", "Unknown state"⟩

/-- Embeds the `switch phase` of
`StoppableContainerInstanceReconciler.updatePhase`: the status and reason
of the Ready condition it records for a phase. -/
def updatePhaseCondition (phase : String) : String × String :=
  if phase = "Running" then ("True", "Running")
  else if phase = "Failed" then ("False", "Failed")
  else ("False", phase)

/-- The slice of a pod's status that the instance controller inspects:
phase, conditions (type/status pairs), scheduled node, UID, status message
and reason, and per-container waiting/terminated reasons. -/
structure PodInfo where
  phase : String
  conditions : List (String × String)
  nodeName : String
  uid : String
  message : String
  reason : String
  containerStatuses : List (Option String × Option String)
deriving DecidableEq

/-- Embeds `isPodReady`: phase `Running` and a `Ready`/`True` condition. -/
def isPodReady (p : PodInfo) : Bool :=
  if p.phase ≠ "Running" then false
  else p.conditions.any fun c => c.1 = "Ready" && c.2 = "True"

/-- Embeds `isPodFailed`. -/
def isPodFailed (p : PodInfo) : Bool := p.phase = "Failed"

/-- The container-status loop of `getPodFailureReason`: first non-empty
waiting reason, else terminated reason, per container in order.  (A nil Go
pointer and an empty reason string behave identically and are both
modelled by an empty extracted reason.) -/
def csReason : List (Option String × Option String) → String
  | [] => "Unknown"
  | (w, t) :: rest =>
    if w.getD "" ≠ "" then w.getD ""
    else if t.getD "" ≠ "" then t.getD ""
    else csReason rest

/-- Embeds `getPodFailureReason`. -/
def getPodFailureReason (p : PodInfo) : String :=
  if p.message ≠ "" then p.message
  else if p.reason ≠ "" then p.reason
  else csReason p.containerStatuses

/-- The slice of a `StoppableContainerInstance` that `Reconcile` branches
on: name, `spec.running`, whether a deletion timestamp is set, and the
finalizer list. -/
structure SCIObj where
  name : String
  running : Bool
  deleting : Bool
  finalizers : List String
deriving DecidableEq

/-- Pod lookup by name in the cluster state (`r.Get` on a pod name; `none`
models a NotFound error). -/
def lookupPod (pods : List (String × PodInfo)) (n : String) : Option PodInfo :=
  (pods.find? fun q => q.1 = n).map fun q => q.2

/-- The externally visible effect of one `Reconcile` call: the
phase/message passed to `updatePhase` (if any), pods created and deleted,
and whether a finalizer was added. -/
structure ReconcileOut where
  phaseSet : Option (String × String)
  createdPods : List String
  deletedPods : List String
  finalizerAdded : Bool
  requeue : Bool
deriving DecidableEq

/-- A `Reconcile` outcome with no effect. -/
def noneOut : ReconcileOut := ⟨none, [], [], false, false⟩

/-- Embeds `StoppableContainerInstanceReconciler.Reconcile` (with
`handleDeletion`, `createProviderPod` and `createConsumerPod` inlined),
as a function of the instance object and of the pods visible in the
cluster.  `createConsumerPod` builds the pod through
`ConsumerPodBuilder.Build`, so the created pod carries the builder's name
(the instance name itself), while the lookups use `consumerLookupName`;
creation fails with AlreadyExists (requeue, no phase update) when a pod
with the builder's name already exists. -/
def reconcile (sci : SCIObj) (pods : List (String × PodInfo)) : ReconcileOut :=
  if sci.deleting then
    if ¬ sci.finalizers.contains finalizerName then noneOut
    else
      match lookupPod pods (consumerLookupName sci.name) with
      | some _ =>
        { noneOut with
            deletedPods := [consumerLookupName sci.name]
            requeue := true }
      | none =>
        match lookupPod pods (providerPodName sci.name) with
        | some _ =>
          { noneOut with
              deletedPods := [providerPodName sci.name]
              requeue := true }
        | none => noneOut
  else if ¬ sci.finalizers.contains finalizerName then
    { noneOut with
        finalizerAdded := true
        requeue := true }
  else
    match lookupPod pods (providerPodName sci.name) with
    | none =>
      { noneOut with
          createdPods := [providerPodName sci.name]
          phaseSet := some ("ProviderStarting", "Provider pod created") }
    | some pp =>
      if ¬ isPodReady pp then
        { noneOut with
            phaseSet := some ("ProviderStarting",
              "Waiting for provider pod to be ready") }
      else if ¬ sci.running then
        match lookupPod pods (consumerLookupName sci.name) with
        | some _ =>
          { noneOut with
              deletedPods := [consumerLookupName sci.name]
              phaseSet := some ("Stopping", "Stopping consumer pod") }
        | none =>
          { noneOut with
              phaseSet := some ("Stopped",
                "Consumer stopped, provider maintaining filesystem") }
      else
        match lookupPod pods (consumerLookupName sci.name) with
        | none =>
          if pp.nodeName = "" then
            { noneOut with
                phaseSet := some ("ProviderReady",
                  "Provider ready, waiting for node assignment") }
          else
            match lookupPod pods sci.name with
            | some _ => { noneOut with requeue := true }
            | none =>
              { noneOut with
                  createdPods := [sci.name]
                  phaseSet := some ("ConsumerStarting", "Consumer pod created") }
        | some cp =>
          if isPodFailed cp then
            { noneOut with
                phaseSet := some ("Failed",
                  "Consumer pod failed: " ++ getPodFailureReason cp) }
          else if ¬ isPodReady cp then
            { noneOut with
                phaseSet := some ("ConsumerStarting",
                  "Waiting for consumer pod to be ready") }
          else
            { noneOut with phaseSet := some ("Running", "All pods running") }

end Controller

namespace ConsumerPodBuilder

/-- The container fields that `ConsumerPodBuilder.Build` manipulates. -/
structure GoContainer where
  name : String
  image : String
  command : List String
  args : List String
  workingDir : String
deriving DecidableEq

/-- `consumerPodName` from the PodSpec-based builder: the consumer pod
uses the same name as the instance (no suffix). -/
def consumerPodName (sciName : String) : String := sciName

/-- The fallback container that `Build` substitutes when the template has
no containers. -/
def fallbackContainer : GoContainer :=
  ⟨"consumer", "busybox:stable", [], [], ""⟩

/-- The zero-container guard at the top of `Build`: substitute the minimal
fallback container instead of failing. -/
def ensureContainers (cs : List GoContainer) : List GoContainer :=
  if cs = [] then [fallbackContainer] else cs

/-- Embeds `buildUserCommand`. -/
def buildUserCommand (c : GoContainer) : List String :=
  if c.command = [] ∧ c.args = [] then ["/bin/sh"]
  else c.command ++ c.args

/-- Embeds `buildEntrypointCommand`. -/
def buildEntrypointCommand (userCommand : List String) (workingDir : String) :
    List String :=
  let wd := if workingDir = "" then "/" else workingDir
  ["/sc-exec", "--entrypoint", wd] ++ userCommand

/-- The overrides `Build` applies to the main (first) container: name,
image, pull policy and entrypoint are replaced, args folded into the
command. -/
def overrideMainContainer (execImage : String) (c : GoContainer) :
    GoContainer :=
  { c with
      name := "consumer"
      image := execImage
      command := buildEntrypointCommand (buildUserCommand c) c.workingDir
      args := [] }

/-- The container list rendered by `Build`: the (possibly substituted)
first container with the wrapper overrides applied, followed by the rest of
the template's containers.  `ensureContainers` never returns an empty
list, so the `[]` branch is unreachable. -/
def buildContainers (execImage : String) (cs : List GoContainer) :
    List GoContainer :=
  match ensureContainers cs with
  | [] => []
  | c :: rest => overrideMainContainer execImage c :: rest

end ConsumerPodBuilder

namespace Fixtures

open GoStrings MountHelper Controller

/-- A `/proc` entry for pid 9 inside the cgroup of pod UID `u`, carrying
the rootfs marker. -/
def procNine : ProcEntry := ⟨chars "9", some (chars "u"), some rootfsMarkerLine⟩

/-- A `/proc` entry for pid 10 inside the cgroup of pod UID `u`, carrying
the rootfs marker. -/
def procTen : ProcEntry := ⟨chars "10", some (chars "u"), some rootfsMarkerLine⟩

/-- A Ready provider pod on `node-1`. -/
def demoProvider : PodInfo :=
  ⟨"Running", [("Ready", "True")], "node-1", "prov-uid", "", "", []⟩

/-- A Ready consumer pod on `node-1`. -/
def demoConsumer : PodInfo :=
  ⟨"Running", [("Ready", "True")], "node-1", "cons-uid", "", "", []⟩

/-- A cluster state for instance `demo`: the provider pod under the
derived provider name, and the consumer pod under the name
`ConsumerPodBuilder.Build` gives it (the instance name itself). -/
def demoPods : List (String × PodInfo) :=
  [("demo-provider", demoProvider), ("demo", demoConsumer)]

/-- Instance `demo` with `spec.running = false` and its finalizer set. -/
def demoStopRequest : SCIObj := ⟨"demo", false, false, [finalizerName]⟩

/-- Instance `demo` with `spec.running = true` and its finalizer set. -/
def demoRunRequest : SCIObj := ⟨"demo", true, false, [finalizerName]⟩

/-- A work directory holding a pending mount request. -/
def demoWorkDir : WorkDirState :=
  ⟨chars "/host/var/lib/stoppablecontainer/default/demo",
    some (chars "demo-request"), none, false⟩

/-- An agent environment in which processing `demoWorkDir` succeeds: the
request decodes to pod UID `u`, pid 9 is the rootfs container, and its
mounts file carries a well-formed overlay line. -/
def demoEnvOk : AgentEnv where
  parseRequest := fun _ => some ⟨chars "u", chars "default", chars "demo"⟩
  procEntries := [procNine]
  mountsOf := fun _ =>
    some [chars "overlay / overlay rw,lowerdir=/var/lib/containerd/l,upperdir=/var/lib/containerd/u,workdir=/var/lib/containerd/w 0 0"]
  mkdirErr := none
  mountErr := fun _ _ => none
  procDevSysErr := none

/-- The same environment with a failing mount syscall. -/
def demoEnvMountFail : AgentEnv where
  parseRequest := fun _ => some ⟨chars "u", chars "default", chars "demo"⟩
  procEntries := [procNine]
  mountsOf := fun _ =>
    some [chars "overlay / overlay rw,lowerdir=/var/lib/containerd/l,upperdir=/var/lib/containerd/u,workdir=/var/lib/containerd/w 0 0"]
  mkdirErr := none
  mountErr := fun _ _ => some (chars "device or resource busy")
  procDevSysErr := none

end Fixtures

namespace GoStrings

theorem goContains_iff (s sub : List Char) :
    goContains s sub = true ↔ sub <:+: s := by
  induction s with
  | nil =>
    simp [goContains, List.isEmpty_iff]
  | cons c t ih =>
    simp only [goContains, Bool.or_eq_true, List.isPrefixOf_iff_prefix, ih,
      List.infix_cons_iff]

theorem goContains_eq_false (s sub : List Char) :
    goContains s sub = false ↔ ¬ sub <:+: s := by
  rw [← goContains_iff s sub]
  cases goContains s sub <;> simp

/-- A list extends each of its front segments (helper for infix reasoning). -/
theorem infixOfFront {l₁ l₂ : List Char} (h : l₁ <+: l₂) : l₁ <:+: l₂ := by
  obtain ⟨t, ht⟩ := h
  exact ⟨[], t, by simpa using ht⟩

/-- A list extends each of its back segments (helper for infix reasoning). -/
theorem infixOfBack {l₁ l₂ : List Char} (h : l₁ <:+ l₂) : l₁ <:+: l₂ := by
  obtain ⟨t, ht⟩ := h
  exact ⟨t, [], by simpa using ht⟩

/-- If the pattern never occurs, `goReplaceAllFuel` is the identity (with any
amount of fuel). -/
theorem goReplaceAllFuel_no_occ (pat rep : List Char) :
    ∀ (f : Nat) (s : List Char), ¬ pat <:+: s →
      goReplaceAllFuel pat rep f s = s := by
  intro f
  induction f with
  | zero => intro s _; cases s <;> rfl
  | succ f ih =>
    intro s h
    cases s with
    | nil => rfl
    | cons c t =>
      have hp : pat.isPrefixOf (c :: t) = false := by
        rw [Bool.eq_false_iff]
        intro hb
        exact h (infixOfFront (List.isPrefixOf_iff_prefix.mp hb))
      have ht : ¬ pat <:+: t := fun hi => h (List.infix_cons hi)
      simp [goReplaceAllFuel, hp, ih t ht]

/-- If the pattern never occurs, `goReplaceAll` is the identity. -/
theorem goReplaceAll_no_occ (pat rep s : List Char) (h : ¬ pat <:+: s) :
    goReplaceAll pat rep s = s :=
  goReplaceAllFuel_no_occ pat rep s.length s h

/-- A string that starts with the pattern, with no other occurrence, is
rewritten to `rep` followed by the tail after the pattern. -/
theorem goReplaceAll_front (pat rep s : List Char) (hne : pat ≠ [])
    (h1 : pat <+: s) (h2 : ¬ pat <:+: s.drop 1) :
    goReplaceAll pat rep s = rep ++ s.drop pat.length := by
  obtain ⟨c, t, rfl⟩ : ∃ c t, s = c :: t := by
    cases s with
    | nil =>
      obtain ⟨u, hu⟩ := h1
      exact absurd (List.append_eq_nil.mp hu).1 hne
    | cons c t => exact ⟨c, t, rfl⟩
  obtain ⟨n, hn⟩ : ∃ n, pat.length = n + 1 := by
    cases hl : pat.length with
    | zero => exact absurd (List.length_eq_zero.mp hl) hne
    | succ n => exact ⟨n, rfl⟩
  have hp : pat.isPrefixOf (c :: t) = true := List.isPrefixOf_iff_prefix.mpr h1
  have hnot : ¬ pat <:+: t.drop (pat.length - 1) := by
    intro hi
    exact h2 (hi.trans (infixOfBack (List.drop_suffix _ t)))
  simp only [goReplaceAll, goReplaceAllFuel, hp, if_true, List.length_cons]
  rw [goReplaceAllFuel_no_occ pat rep t.length _ hnot, hn]
  simp [List.drop_succ_cons]

/-- Replacement with `rep` at least as long as the pattern never shrinks
the string. -/
theorem goReplaceAllFuel_len_ge (pat rep : List Char) (hne : pat ≠ [])
    (hlen : pat.length ≤ rep.length) :
    ∀ (f : Nat) (s : List Char), s.length ≤ f →
      s.length ≤ (goReplaceAllFuel pat rep f s).length := by
  have hpat1 : 1 ≤ pat.length := by
    cases pat with
    | nil => exact absurd rfl hne
    | cons a u => simp
  intro f
  induction f with
  | zero =>
    intro s h
    cases s with
    | nil => simp [goReplaceAllFuel]
    | cons c t => simp at h
  | succ f ih =>
    intro s h
    cases s with
    | nil => simp [goReplaceAllFuel]
    | cons c t =>
      simp only [List.length_cons] at h
      by_cases hp : pat.isPrefixOf (c :: t) = true
      · have hple : pat.length ≤ t.length + 1 := by
          simpa using (List.isPrefixOf_iff_prefix.mp hp).length_le
        have hrec : (t.drop (pat.length - 1)).length ≤ f := by
          simp only [List.length_drop]
          omega
        have hr := ih (t.drop (pat.length - 1)) hrec
        rw [List.length_drop] at hr
        simp only [goReplaceAllFuel, hp, if_true, List.length_append,
          List.length_cons]
        omega
      · have hr := ih t (by omega)
        rw [Bool.not_eq_true] at hp
        simp only [goReplaceAllFuel, hp, Bool.false_eq_true, if_false,
          List.length_cons]
        omega

/-- Replacement with `rep` strictly longer than the pattern strictly grows
any string in which the pattern occurs. -/
theorem goReplaceAllFuel_len_gt (pat rep : List Char) (hne : pat ≠ [])
    (hlen : pat.length < rep.length) :
    ∀ (f : Nat) (s : List Char), s.length ≤ f → pat <:+: s →
      s.length < (goReplaceAllFuel pat rep f s).length := by
  intro f
  induction f with
  | zero =>
    intro s h hocc
    cases s with
    | nil =>
      rw [List.infix_nil] at hocc
      exact absurd hocc hne
    | cons c t => simp at h
  | succ f ih =>
    intro s h hocc
    cases s with
    | nil =>
      rw [List.infix_nil] at hocc
      exact absurd hocc hne
    | cons c t =>
      simp only [List.length_cons] at h
      have hpat1 : 1 ≤ pat.length := by
        cases pat with
        | nil => exact absurd rfl hne
        | cons a u => simp
      by_cases hp : pat.isPrefixOf (c :: t) = true
      · have hple : pat.length ≤ t.length + 1 := by
          simpa using (List.isPrefixOf_iff_prefix.mp hp).length_le
        have hrec : (t.drop (pat.length - 1)).length ≤ f := by
          simp only [List.length_drop]
          omega
        have hr := goReplaceAllFuel_len_ge pat rep hne (Nat.le_of_lt hlen) f
          (t.drop (pat.length - 1)) hrec
        rw [List.length_drop] at hr
        simp only [goReplaceAllFuel, hp, if_true, List.length_append,
          List.length_cons]
        omega
      · have hocct : pat <:+: t := by
          rcases List.infix_cons_iff.mp hocc with hpre | hinf
          · exact absurd (List.isPrefixOf_iff_prefix.mpr hpre) hp
          · exact hinf
        have hr := ih t (by omega) hocct
        rw [Bool.not_eq_true] at hp
        simp only [goReplaceAllFuel, hp, Bool.false_eq_true, if_false,
          List.length_cons]
        omega

/-- If the pattern occurs in `s` and also occurs in `rep`, it still occurs
after replacement. -/
theorem goReplaceAllFuel_keeps_occ (pat rep : List Char)
    (hrep : pat <:+: rep) :
    ∀ (f : Nat) (s : List Char), pat <:+: s →
      pat <:+: goReplaceAllFuel pat rep f s := by
  intro f
  induction f with
  | zero =>
    intro s hocc
    cases s with
    | nil => simpa [goReplaceAllFuel] using hocc
    | cons c t => simpa [goReplaceAllFuel] using hocc
  | succ f ih =>
    intro s hocc
    cases s with
    | nil => simpa [goReplaceAllFuel] using hocc
    | cons c t =>
      by_cases hp : pat.isPrefixOf (c :: t) = true
      · simp only [goReplaceAllFuel, hp, if_true]
        exact hrep.trans (infixOfFront (List.prefix_append rep _))
      · have hocct : pat <:+: t := by
          rcases List.infix_cons_iff.mp hocc with hpre | hinf
          · exact absurd (List.isPrefixOf_iff_prefix.mpr hpre) hp
          · exact hinf
        rw [Bool.not_eq_true] at hp
        simp only [goReplaceAllFuel, hp, Bool.false_eq_true, if_false]
        exact List.infix_cons (ih t hocct)

end GoStrings

namespace MountHelper

open GoStrings

theorem mem_insertByName {x e : ProcEntry} {l : List ProcEntry} :
    x ∈ insertByName e l ↔ x = e ∨ x ∈ l := by
  induction l with
  | nil => simp [insertByName]
  | cons a as ih =>
    by_cases h : lexLe e.name a.name = true
    · simp [insertByName, h]
    · rw [Bool.not_eq_true] at h
      simp only [insertByName, h, Bool.false_eq_true, if_false,
        List.mem_cons, ih]
      tauto

theorem mem_sortByName {x : ProcEntry} {l : List ProcEntry} :
    x ∈ sortByName l ↔ x ∈ l := by
  induction l with
  | nil => simp [sortByName]
  | cons a as ih => simp [sortByName, mem_insertByName, ih]

theorem findLoop_some_split {u : List Char} {l : List ProcEntry} {pid : Int}
    (h : findLoop u l = some pid) :
    ∃ l1 e l2, l = l1 ++ e :: l2 ∧ matchPid u e = some pid ∧
      ∀ e' ∈ l1, matchPid u e' = none := by
  induction l with
  | nil => simp [findLoop] at h
  | cons a as ih =>
    rcases hm : matchPid u a with _ | p
    · have h' : findLoop u as = some pid := by
        simpa [findLoop, hm] using h
      obtain ⟨l1, e, l2, rfl, he, hnone⟩ := ih h'
      refine ⟨a :: l1, e, l2, rfl, he, ?_⟩
      intro e' he'
      rcases List.mem_cons.mp he' with rfl | hmem
      · exact hm
      · exact hnone e' hmem
    · have hpp : p = pid := by
        simpa [findLoop, hm] using h
      subst hpp
      exact ⟨[], a, as, rfl, hm, by simp⟩

theorem findLoop_eq_none {u : List Char} {l : List ProcEntry} :
    findLoop u l = none ↔ ∀ e ∈ l, matchPid u e = none := by
  induction l with
  | nil => simp [findLoop]
  | cons a as ih =>
    rcases hm : matchPid u a with _ | p
    · simp [findLoop, hm, ih]
    · simp only [findLoop, hm]
      constructor
      · intro h; cases h
      · intro hall
        have := hall a (by simp)
        rw [hm] at this
        cases this

theorem matchPid_some {u : List Char} {e : ProcEntry} {pid : Int}
    (h : matchPid u e = some pid) :
    goAtoi e.name = some pid ∧
      (∃ cg, e.cgroup = some cg ∧ goContains cg u = true) ∧
      (∃ ev, e.environ = some ev ∧ goContains ev rootfsMarkerLine = true) := by
  unfold matchPid at h
  split at h
  · exact Option.noConfusion h
  next p ha =>
    split at h
    · exact Option.noConfusion h
    next cg hc =>
      split at h
      · exact Option.noConfusion h
      next hg =>
        split at h
        · exact Option.noConfusion h
        next ev he =>
          split at h
          next hv =>
            have hpp : p = pid := Option.some.inj h
            subst hpp
            have hgt : goContains cg u = true := by
              rcases hb : goContains cg u with _ | _
              · exact absurd (by simp [hb]) hg
              · rfl
            exact ⟨ha, ⟨cg, hc, hgt⟩, ⟨ev, he, hv⟩⟩
          next hv =>
            exact Option.noConfusion h

theorem processRequest_shape (env : AgentEnv) (wd : WorkDirState)
    (raw : List Char) (hreq : wd.request = some raw) :
    processRequest env wd =
      (⟨wd.path, none, some ⟨chars "ready", []⟩, true⟩, .ok ()) ∨
    (∃ wd' m, processRequest env wd = (wd', .error m) ∧
      wd'.request = some raw ∧ wd'.ready = wd.ready) := by
  simp only [processRequest, hreq]
  repeat' split
  all_goals
    first
      | exact Or.inl rfl
      | exact Or.inr ⟨wd, _, rfl, hreq, rfl⟩
      | exact Or.inr ⟨⟨wd.path, some raw, wd.ready, true⟩, _, rfl, rfl, rfl⟩

theorem getOverlayfsOptions_err {lines : List (List Char)}
    (h : ∀ l ∈ lines, overlayLineTag.isPrefixOf l = false) :
    getOverlayfsOptions lines = .error (chars "overlayfs mount not found") := by
  induction lines with
  | nil => rfl
  | cons l ls ih =>
    have hl : overlayLineTag.isPrefixOf l = false := h l (by simp)
    simp only [getOverlayfsOptions, hl, Bool.false_eq_true, if_false]
    exact ih fun l' hl' => h l' (List.mem_cons_of_mem _ hl')

end MountHelper

open GoStrings MountHelper Controller ConsumerPodBuilder Fixtures

/-- Claim C1 (code_bug exhibit): the builders derive `demo-provider` for the
provider pod and exactly `demo` (no suffix) for the consumer pod, but the
instance controller's `Reconcile` looks the consumer pod up under
`demo-consumer`, a different name; in a state where the consumer pod exists
under its creation name, the reconcile step neither observes it nor can
recreate it (AlreadyExists), so it only requeues. -/
theorem c1_consumer_name_divergence :
    providerPodName "demo" = "demo-provider" ∧
    consumerPodName "demo" = "demo" ∧
    consumerLookupName "demo" = "demo-consumer" ∧
    consumerLookupName "demo" ≠ consumerPodName "demo" ∧
    reconcile demoRunRequest demoPods = { noneOut with requeue := true } := by
  refine ⟨rfl, rfl, rfl, ?_, ?_⟩ <;> decide

/-- Claim C9 (code_bug exhibit): a reconcile step of an instance with
`spec.running = false`, a Ready provider, and the consumer pod present
under its derived (creation) name sets the phase to `Stopped` without
deleting anything — the consumer pod with the instance's derived consumer
name still exists and is Ready, because the step checked the wrong name. -/
theorem c9_stopped_with_live_consumer :
    (reconcile demoStopRequest demoPods).phaseSet =
      some ("Stopped", "Consumer stopped, provider maintaining filesystem") ∧
    (reconcile demoStopRequest demoPods).deletedPods = [] ∧
    lookupPod demoPods (consumerPodName demoStopRequest.name) =
      some demoConsumer ∧
    isPodReady demoConsumer = true ∧
    lookupPod demoPods (providerPodName demoStopRequest.name) =
      some demoProvider ∧
    isPodReady demoProvider = true := by
  decide

/-- Claim C3 (counterexample): applying the agent's path adjustment twice
differs from applying it once on an option string containing the
container-runtime path — the second application prepends `/host` again. -/
theorem c3_not_idempotent :
    adjustPathsForHost (adjustPathsForHost
        (chars "lowerdir=/var/lib/containerd/a")) ≠
      adjustPathsForHost (chars "lowerdir=/var/lib/containerd/a") := by
  decide

/-- Claim C3 (amended): applying the agent's path adjustment twice equals
applying it once exactly when the option string contains no occurrence of
`/var/lib/containerd` (on which the adjustment is the identity); on any
string containing the container-runtime path the second application
rewrites again. -/
theorem c3_idempotent_iff (s : List Char) :
    adjustPathsForHost (adjustPathsForHost s) = adjustPathsForHost s ↔
      goContains s ctrdPath = false := by
  constructor
  · intro h
    rcases hb : goContains s ctrdPath with _ | _
    · rfl
    · exfalso
      have hocc : ctrdPath <:+: s := (goContains_iff s ctrdPath).mp hb
      have hkeep : ctrdPath <:+: adjustPathsForHost s :=
        goReplaceAllFuel_keeps_occ ctrdPath (hostRootPath ++ ctrdPath)
          (infixOfBack (List.suffix_append hostRootPath ctrdPath))
          s.length s hocc
      have hlt := goReplaceAllFuel_len_gt ctrdPath (hostRootPath ++ ctrdPath)
        (by decide) (by decide) (adjustPathsForHost s).length
        (adjustPathsForHost s) le_rfl hkeep
      rw [show goReplaceAllFuel ctrdPath (hostRootPath ++ ctrdPath)
          (adjustPathsForHost s).length (adjustPathsForHost s) =
          adjustPathsForHost (adjustPathsForHost s) from rfl, h] at hlt
      exact lt_irrefl _ hlt
  · intro h
    have hid : adjustPathsForHost s = s :=
      goReplaceAll_no_occ _ _ _ ((goContains_eq_false s ctrdPath).mp h)
    rw [hid]
    exact hid

/-- Witness for C3's amended theorem at a concrete option string. -/
theorem c3_idempotent_iff_witness :
    adjustPathsForHost (adjustPathsForHost (chars "lowerdir=/other")) =
        adjustPathsForHost (chars "lowerdir=/other") ↔
      goContains (chars "lowerdir=/other") ctrdPath = false :=
  c3_idempotent_iff (chars "lowerdir=/other")

/-- Claim C4 (counterexample): a path that does not begin with the
container-runtime path but contains it in the middle is left unchanged by
the per-path rule of the spec, yet `adjustPathsForHost` rewrites it. -/
theorem c4_mid_path_rewritten :
    SpecModel.specAdjustPaths (chars "lowerdir=/data/var/lib/containerd/x") =
      chars "lowerdir=/data/var/lib/containerd/x" ∧
    adjustPathsForHost (chars "lowerdir=/data/var/lib/containerd/x") ≠
      SpecModel.specAdjustPaths (chars "lowerdir=/data/var/lib/containerd/x") := by
  decide

/-- Claim C4 (amended): the adjustment replaces every occurrence of the
substring `/var/lib/containerd`, wherever it occurs: an option string with
no occurrence is left unchanged, and a string that starts with the
container-runtime path and contains no further occurrence is rewritten by
prepending the host root to it. -/
theorem c4_occurrence_rewrite :
    (∀ s : List Char, goContains s ctrdPath = false →
      adjustPathsForHost s = s) ∧
    (∀ s : List Char, ctrdPath.isPrefixOf s = true →
      goContains (s.drop 1) ctrdPath = false →
      adjustPathsForHost s = hostRootPath ++ s) := by
  constructor
  · intro s h
    exact goReplaceAll_no_occ _ _ _ ((goContains_eq_false s ctrdPath).mp h)
  · intro s h1 h2
    have hpre : ctrdPath <+: s := List.isPrefixOf_iff_prefix.mp h1
    show goReplaceAll ctrdPath (hostRootPath ++ ctrdPath) s = hostRootPath ++ s
    rw [goReplaceAll_front ctrdPath (hostRootPath ++ ctrdPath) s (by decide)
      hpre ((goContains_eq_false _ _).mp h2), List.append_assoc]
    congr 1
    exact List.prefix_iff_eq_append.mp hpre

/-- Witness for C4's amended theorem: a string without the runtime path is
unchanged; a path-initial occurrence is rewritten under the host root. -/
theorem c4_occurrence_rewrite_witness :
    adjustPathsForHost (chars "lowerdir=/other/path,upperdir=/other/path2") =
      chars "lowerdir=/other/path,upperdir=/other/path2" ∧
    adjustPathsForHost (chars "/var/lib/containerd/a") =
      hostRootPath ++ chars "/var/lib/containerd/a" :=
  ⟨c4_occurrence_rewrite.1 _ (by decide),
   c4_occurrence_rewrite.2 _ (by decide) (by decide)⟩

/-- Claim C5 (counterexample): with processes 9 and 10 both matching the
pod UID, the search returns 10, because `os.ReadDir` orders entries
lexicographically by name and `"10"` sorts before `"9"` — not the lowest
pid, which is 9. -/
theorem c5_not_lowest_pid :
    findRootfsContainer (chars "u") [procNine, procTen] = .ok 10 ∧
    matchPid (goReplaceAll (chars "-") (chars "_") (chars "u")) procNine =
      some 9 ∧
    matchPid (goReplaceAll (chars "-") (chars "_") (chars "u")) procTen =
      some 10 ∧
    (9 : Int) < 10 :=
  ⟨rfl, by decide, by decide, by decide⟩

/-- Claim C5 (amended): a successful search returns a pid parsed from an
entry whose cgroup contains the UID with dashes replaced by underscores and
whose environ contains the rootfs marker; the search fails with
`rootfs container not found` exactly when no entry matches both conditions;
and when more than one entry matches, the returned one is the first match
in the name-sorted (`os.ReadDir`) order of the listing, which need not be
the numerically lowest pid. -/
theorem c5_first_sorted_match (uid : List Char) (entries : List ProcEntry) :
    (∀ pid, findRootfsContainer uid entries = .ok pid →
      ∃ e, e ∈ entries ∧ goAtoi e.name = some pid ∧
        (∃ cg, e.cgroup = some cg ∧
          goContains cg (goReplaceAll (chars "-") (chars "_") uid) = true) ∧
        (∃ ev, e.environ = some ev ∧
          goContains ev rootfsMarkerLine = true)) ∧
    (findRootfsContainer uid entries =
        .error (chars "rootfs container not found for pod " ++ uid) ↔
      ∀ e ∈ entries,
        matchPid (goReplaceAll (chars "-") (chars "_") uid) e = none) ∧
    (∀ pid, findRootfsContainer uid entries = .ok pid →
      ∃ l1 e l2, sortByName entries = l1 ++ e :: l2 ∧
        matchPid (goReplaceAll (chars "-") (chars "_") uid) e = some pid ∧
        ∀ e' ∈ l1,
          matchPid (goReplaceAll (chars "-") (chars "_") uid) e' = none) := by
  refine ⟨?_, ⟨?_, ?_⟩, ?_⟩
  · intro pid h
    rcases hl : findLoop (goReplaceAll (chars "-") (chars "_") uid)
        (sortByName entries) with _ | p
    · unfold findRootfsContainer at h
      rw [hl] at h
      exact Except.noConfusion h
    · have hpp : p = pid := by
        unfold findRootfsContainer at h
        rw [hl] at h
        exact Except.ok.inj h
      subst hpp
      obtain ⟨l1, e, l2, hsp, he, -⟩ := findLoop_some_split hl
      obtain ⟨hn, hcg, hev⟩ := matchPid_some he
      refine ⟨e, ?_, hn, hcg, hev⟩
      have : e ∈ sortByName entries := by
        rw [hsp]
        exact List.mem_append_right _ (List.mem_cons_self e l2)
      exact mem_sortByName.mp this
  · intro h e he
    rcases hl : findLoop (goReplaceAll (chars "-") (chars "_") uid)
        (sortByName entries) with _ | p
    · exact findLoop_eq_none.mp hl e (mem_sortByName.mpr he)
    · unfold findRootfsContainer at h
      rw [hl] at h
      exact Except.noConfusion h
  · intro hall
    have hl : findLoop (goReplaceAll (chars "-") (chars "_") uid)
        (sortByName entries) = none :=
      findLoop_eq_none.mpr fun e he => hall e (mem_sortByName.mp he)
    unfold findRootfsContainer
    rw [hl]
  · intro pid h
    rcases hl : findLoop (goReplaceAll (chars "-") (chars "_") uid)
        (sortByName entries) with _ | p
    · unfold findRootfsContainer at h
      rw [hl] at h
      exact Except.noConfusion h
    · have hpp : p = pid := by
        unfold findRootfsContainer at h
        rw [hl] at h
        exact Except.ok.inj h
      subst hpp
      exact findLoop_some_split hl

/-- Witness for C5's amended theorem: on an empty listing the search fails
with the not-found error. -/
theorem c5_first_sorted_match_witness :
    findRootfsContainer (chars "u") [] =
      .error (chars "rootfs container not found for pod " ++ chars "u") :=
  (c5_first_sorted_match (chars "u") []).2.1.mpr (by simp)

/-- Claim C6 (counterexample): an option string missing `workdir=` passes
the agent's validation and the mount is issued — only `lowerdir=` and
`upperdir=` are checked. -/
theorem c6_workdir_not_checked :
    mountOverlay none (chars "/w/rootfs") (chars "lowerdir=/a,upperdir=/b") =
      .ok () ∧
    goContains (chars "lowerdir=/a,upperdir=/b") (chars "workdir=") = false :=
  ⟨rfl, by decide⟩

/-- Claim C6 (amended): the agent fails the mount when the extracted option
string is missing `lowerdir=` or missing `upperdir=` (`workdir=` is not
validated), and option extraction fails when no `overlay / overlay ` line
exists in the container's mounts file. -/
theorem c6_mount_validation :
    (∀ (me : Option (List Char)) (tgt opts : List Char),
      goContains opts (chars "lowerdir=") = false →
      mountOverlay me tgt opts =
        .error (chars "invalid overlay options: missing lowerdir or upperdir")) ∧
    (∀ (me : Option (List Char)) (tgt opts : List Char),
      goContains opts (chars "upperdir=") = false →
      mountOverlay me tgt opts =
        .error (chars "invalid overlay options: missing lowerdir or upperdir")) ∧
    (∀ lines : List (List Char),
      (∀ l ∈ lines, overlayLineTag.isPrefixOf l = false) →
      getOverlayfsOptions lines = .error (chars "overlayfs mount not found")) := by
  refine ⟨?_, ?_, ?_⟩
  · intro me tgt opts h
    simp [mountOverlay, h]
  · intro me tgt opts h
    simp [mountOverlay, h]
  · intro lines h
    exact getOverlayfsOptions_err h

/-- Witness for C6's amended theorem at concrete inputs. -/
theorem c6_mount_validation_witness :
    mountOverlay none (chars "/w/rootfs") (chars "upperdir=/b") =
      .error (chars "invalid overlay options: missing lowerdir or upperdir") ∧
    getOverlayfsOptions [chars "proc /proc proc rw 0 0"] =
      .error (chars "overlayfs mount not found") :=
  ⟨c6_mount_validation.1 none _ _ (by decide),
   c6_mount_validation.2.2 _ (by decide)⟩

/-- Claim C2: mount-request processing is transactional at the file level:
when `processRequest` succeeds the pass removes `request.json` and writes
`ready.json` with status `ready`; when it returns an error, the pass
leaves `request.json` in place and writes `ready.json` with status `error`
and the error message. -/
theorem c2_transactional (env : AgentEnv) (wd : WorkDirState)
    (raw : List Char) (hreq : wd.request = some raw) :
    ((processRequest env wd).2 = .ok () →
      (handleWorkDir env wd).request = none ∧
      (handleWorkDir env wd).ready = some ⟨chars "ready", []⟩) ∧
    (∀ m, (processRequest env wd).2 = .error m →
      (handleWorkDir env wd).request = some raw ∧
      (handleWorkDir env wd).ready = some ⟨chars "error", m⟩) := by
  rcases processRequest_shape env wd raw hreq with hok | ⟨wd', m, herr, hr, hy⟩
  · constructor
    · intro _
      simp [handleWorkDir, hreq, hok]
    · intro m hm
      rw [hok] at hm
      exact Except.noConfusion hm
  · constructor
    · intro hm
      rw [herr] at hm
      exact Except.noConfusion hm
    · intro m' hm'
      rw [herr] at hm'
      have hmm : m = m' := Except.error.inj hm'
      subst hmm
      simp [handleWorkDir, hreq, herr, hr]

/-- Witness for C2 at a concrete environment and work directory in which
processing succeeds. -/
theorem c2_transactional_witness :
    ((processRequest demoEnvOk demoWorkDir).2 = .ok () →
      (handleWorkDir demoEnvOk demoWorkDir).request = none ∧
      (handleWorkDir demoEnvOk demoWorkDir).ready =
        some ⟨chars "ready", []⟩) ∧
    (∀ m, (processRequest demoEnvOk demoWorkDir).2 = .error m →
      (handleWorkDir demoEnvOk demoWorkDir).request =
        some (chars "demo-request") ∧
      (handleWorkDir demoEnvOk demoWorkDir).ready =
        some ⟨chars "error", m⟩) :=
  c2_transactional demoEnvOk demoWorkDir (chars "demo-request") rfl

/-- Claim C7: the workload controller projects the observed instance phase
onto the workload phase and Ready condition exactly per the projection
table, with `Failed` carrying the instance's message and any unknown phase
collapsing to `Pending` with an `Unknown` condition. -/
theorem c7_projection (msg p : String)
    (hp : p ∉ (["Pending", "ProviderStarting", "ProviderReady",
      "ConsumerStarting", "Running", "Stopping", "Stopped",
      "Failed"] : List String)) :
    updateStatusFromInstance "Pending" msg =
      ⟨"Pending", "False", "Pending", "Instance is starting up"⟩ ∧
    updateStatusFromInstance "ProviderStarting" msg =
      ⟨"Pending", "False", "Pending", "Instance is starting up"⟩ ∧
    updateStatusFromInstance "ProviderReady" msg =
      ⟨"ProviderReady", "False", "ProviderReady",
        "Provider is ready, consumer is starting"⟩ ∧
    updateStatusFromInstance "ConsumerStarting" msg =
      ⟨"ProviderReady", "False", "ProviderReady",
        "Provider is ready, consumer is starting"⟩ ∧
    updateStatusFromInstance "Running" msg =
      ⟨"Running", "True", "Running", "Container is running"⟩ ∧
    updateStatusFromInstance "Stopping" msg =
      ⟨"Stopped", "False", "Stopped",
        "Container is stopped, filesystem preserved"⟩ ∧
    updateStatusFromInstance "Stopped" msg =
      ⟨"Stopped", "False", "Stopped",
        "Container is stopped, filesystem preserved"⟩ ∧
    updateStatusFromInstance "Failed" msg =
      ⟨"Failed", "False", "Failed", msg⟩ ∧
    updateStatusFromInstance p msg =
      ⟨"Pending", "Unknown", "Unknown", "Unknown state"⟩ := by
  simp only [List.mem_cons, List.not_mem_nil, or_false, not_or] at hp
  obtain ⟨h1, h2, h3, h4, h5, h6, h7, h8⟩ := hp
  refine ⟨?_, ?_, ?_, ?_, ?_, ?_, ?_, ?_, ?_⟩ <;>
    simp [updateStatusFromInstance, h1, h2, h3, h4, h5, h6, h7, h8]

/-- Witness for C7 at a concrete message and unknown phase. -/
theorem c7_projection_witness :
    updateStatusFromInstance "Failed" "boom" =
      ⟨"Failed", "False", "Failed", "boom"⟩ ∧
    updateStatusFromInstance "Bogus" "boom" =
      ⟨"Pending", "Unknown", "Unknown", "Unknown state"⟩ :=
  ⟨(c7_projection "boom" "Bogus" (by decide)).2.2.2.2.2.2.2.1,
   (c7_projection "boom" "Bogus" (by decide)).2.2.2.2.2.2.2.2⟩

/-- Claim C8: the Ready condition recorded by `updatePhase` has status
`True` with reason `Running` exactly when the phase is `Running`, status
`False` with reason `Failed` for phase `Failed`, and status `False` with
the phase name as reason for every other phase. -/
theorem c8_condition_mapping (p : String) :
    ((updatePhaseCondition p).1 = "True" ↔ p = "Running") ∧
    updatePhaseCondition "Running" = ("True", "Running") ∧
    updatePhaseCondition "Failed" = ("False", "Failed") ∧
    (p ≠ "Running" → p ≠ "Failed" →
      updatePhaseCondition p = ("False", p)) := by
  by_cases hR : p = "Running"
  · subst hR
    refine ⟨by simp [updatePhaseCondition], rfl, rfl, ?_⟩
    intro h _
    exact absurd rfl h
  · by_cases hF : p = "Failed"
    · subst hF
      refine ⟨by simp [updatePhaseCondition], rfl, rfl, ?_⟩
      intro _ h
      exact absurd rfl h
    · refine ⟨by simp [updatePhaseCondition, hR, hF], rfl, rfl, ?_⟩
      intro _ _
      simp [updatePhaseCondition, hR, hF]

/-- Witness for C8 at a phase that is neither `Running` nor `Failed`. -/
theorem c8_condition_mapping_witness :
    updatePhaseCondition "Stopped" = ("False", "Stopped") :=
  (c8_condition_mapping "Stopped").2.2.2 (by decide) (by decide)

/-- Claim C10: the PodSpec-based consumer builder renders a non-empty
container list for every input (it has no error path); for a template with
zero containers it substitutes the minimal `busybox:stable` container named
`consumer` and still renders the pod, the main container keeping the name
`consumer` with the wrapper entrypoint. -/
theorem c10_build_total (img : String) (cs : List GoContainer) :
    buildContainers img cs ≠ [] ∧
    ensureContainers ([] : List GoContainer) = [fallbackContainer] ∧
    fallbackContainer.name = "consumer" ∧
    fallbackContainer.image = "busybox:stable" ∧
    buildContainers img [] = [overrideMainContainer img fallbackContainer] ∧
    (overrideMainContainer img fallbackContainer).name = "consumer" ∧
    (overrideMainContainer img fallbackContainer).command =
      ["/sc-exec", "--entrypoint", "/", "/bin/sh"] := by
  refine ⟨?_, rfl, rfl, rfl, rfl, rfl, rfl⟩
  cases cs with
  | nil => simp [buildContainers, ensureContainers]
  | cons a l => simp [buildContainers, ensureContainers]

/-- Witness for C10 at the default wrapper image and the empty container
list. -/
theorem c10_build_total_witness :
    buildContainers "ghcr.io/xtlsoft/stoppablecontainer-exec:latest"
        ([] : List GoContainer) ≠ [] ∧
    ensureContainers ([] : List GoContainer) = [fallbackContainer] ∧
    fallbackContainer.name = "consumer" ∧
    fallbackContainer.image = "busybox:stable" ∧
    buildContainers "ghcr.io/xtlsoft/stoppablecontainer-exec:latest" [] =
      [overrideMainContainer "ghcr.io/xtlsoft/stoppablecontainer-exec:latest"
        fallbackContainer] ∧
    (overrideMainContainer "ghcr.io/xtlsoft/stoppablecontainer-exec:latest"
        fallbackContainer).name = "consumer" ∧
    (overrideMainContainer "ghcr.io/xtlsoft/stoppablecontainer-exec:latest"
        fallbackContainer).command =
      ["/sc-exec", "--entrypoint", "/", "/bin/sh"] :=
  c10_build_total "ghcr.io/xtlsoft/stoppablecontainer-exec:latest" []
